import Mathlib

/-!
Verification of the BFT-MV-DID reconciliation simulator
(`src/simulations/bft_mv_did_protocol.py`).

The Python simulator is embedded shallowly: every random draw
(`random.sample`, `random.randint`, `random.uniform`) becomes an explicit
oracle parameter, `time.time()` becomes an explicit `now : Int` parameter,
and the mutable `BFTMVDIDNetwork` object becomes a `Network` record that is
threaded through the round functions.  Python's `float` timestamps are
modelled as `Int`: the code only ever stores timestamps, it never branches
on them.  `hashlib.sha256(...).hexdigest()[:16]` is modelled as an abstract
injective string encoding; the simulator only ever compares digests for
equality, so only the function's extensionality is relevant.
-/

namespace BFTMVDID

/-- `AgentType` enum: honest or byzantine. -/
inductive AgentType where
  | honest : AgentType
  | byzantine : AgentType
deriving DecidableEq, BEq, Repr

/-- `DIDView`: local view of a DID at an agent. -/
structure DIDView where
  did : String
  version : Nat
  doc_hash : String
  timestamp : Int
deriving DecidableEq, Repr

/-- `DIDView.__eq__`: views are compared on `did`, `version` and `doc_hash`;
the `timestamp` field does not participate. -/
def viewEq (a b : DIDView) : Bool :=
  a.did == b.did && a.version == b.version && a.doc_hash == b.doc_hash

/-- A view re-stamped with a new timestamp.  The update branches of
`_handle_summary` build exactly this value from the ledger view. -/
def retimeView (v : DIDView) (t : Int) : DIDView :=
  { v with timestamp := t }

/-- `BFTMVDIDNetwork._compute_hash`: sha256 truncated to 16 hex chars in the
source; modelled as an abstract injective encoding of the input string
(the simulator only compares digests for equality). -/
def compute_hash (data : String) : String :=
  "h:" ++ data

/-- `Agent` dataclass. `local_view` is `Optional` in the source but is always
assigned by `_initialize_views` before any use, so it is modelled as total. -/
structure Agent where
  agent_id : Nat
  agent_type : AgentType
  local_view : DIDView
  peers : List Nat := []
  messages_sent : Nat := 0
  messages_received : Nat := 0
  ledger_queries : Nat := 0
deriving DecidableEq, Repr

/-- `Agent.is_byzantine`. -/
def Agent.is_byzantine (a : Agent) : Bool :=
  a.agent_type == AgentType.byzantine

/-- Protocol `Message`.  The unused `operations` placeholder list is omitted;
`receiver` is the concrete peer id (the transient `-1` broadcast sentinel of
the source is replaced by the per-peer copies before any delivery). -/
structure Message where
  sender : Nat
  receiver : Nat
  msg_type : String
  view : DIDView
  round_num : Nat := 0
deriving DecidableEq, Repr

/-- The random draws made by `BFTMVDIDNetwork.__init__` /
`_initialize_views`, made explicit:
`byzantine_ids` is `random.sample(range(n_agents), f_byzantine)`,
`byz_version i` is the `random.randint(5, 15)` draw for byzantine agent `i`,
`stale_version i` is the `random.randint(5, 9)` draw for honest agent `i`,
`stale_offset i` is the `random.uniform(10, 100)` age offset, and
`now` is `time.time()` at construction. -/
structure InitChoice where
  byzantine_ids : List Nat
  byz_version : Nat → Nat
  stale_version : Nat → Nat
  stale_offset : Nat → Int
  now : Int

/-- `BFTMVDIDNetwork` state. -/
structure Network where
  n_agents : Nat
  f_byzantine : Nat
  fanout : Nat
  did : String
  agents : List Agent
  ledger_view : DIDView
  round_num : Nat
  total_messages : Nat
  total_ledger_queries : Nat
  convergence_round : Option Nat
deriving DecidableEq, Repr

/-- `BFTMVDIDNetwork.__init__` together with `_initialize_views`:
the requested fanout is capped at `n_agents - 1`, ground truth is the
version-10 ledger view, agents drawn in `byzantine_ids` start with a
fabricated view, the others with a stale (version 5..9) ledger view. -/
def Network.init (n_agents f_byzantine fanout : Nat) (did : String)
    (c : InitChoice) : Network :=
  let eff_fanout := min fanout (n_agents - 1)
  let ledger_view : DIDView :=
    { did := did, version := 10,
      doc_hash := compute_hash "ledger_doc_v10", timestamp := c.now }
  let mk_agent : Nat → Agent := fun i =>
    if i ∈ c.byzantine_ids then
      { agent_id := i, agent_type := AgentType.byzantine,
        local_view :=
          { did := did, version := c.byz_version i,
            doc_hash := compute_hash ("fake_doc_" ++ toString i),
            timestamp := c.now } }
    else
      { agent_id := i, agent_type := AgentType.honest,
        local_view :=
          { did := did, version := c.stale_version i,
            doc_hash := compute_hash ("ledger_doc_v" ++ toString (c.stale_version i)),
            timestamp := c.now - c.stale_offset i } }
  { n_agents := n_agents, f_byzantine := f_byzantine, fanout := eff_fanout,
    did := did,
    agents := (List.range n_agents).map mk_agent,
    ledger_view := ledger_view,
    round_num := 0, total_messages := 0, total_ledger_queries := 0,
    convergence_round := none }

/-- The random draws made during one call of `run_round`, made explicit:
`peers i` is the `random.sample` of `_select_peers` for agent `i`,
`byz_version i` / `byz_seed i` are the two `random.randint` draws of
`_byzantine_agent_summary` for byzantine agent `i` (each called exactly once
per agent per round), and `now` is `time.time()`. -/
structure RoundOracle where
  peers : Nat → List Nat
  byz_version : Nat → Nat
  byz_seed : Nat → Nat
  now : Int

/-- What `random.sample(all_others, min(fanout, len(all_others)))` in
`_select_peers` guarantees about the drawn peer lists. -/
def RoundOracle.Valid (o : RoundOracle) (n fanout : Nat) : Prop :=
  ∀ i, i < n →
    (o.peers i).length = min fanout (n - 1) ∧ (o.peers i).Nodup ∧
    ∀ p ∈ o.peers i, p < n ∧ p ≠ i

/-- The fabricated view built by `_byzantine_agent_summary` for agent `i`:
a lie about the version and a digest from agent-unrelated random material.
Note the source builds this once per agent per call of `run_round`. -/
def byzantine_fake_view (net : Network) (o : RoundOracle) (i : Nat) : DIDView :=
  { did := net.did, version := o.byz_version i,
    doc_hash := compute_hash ("byzantine_" ++ toString (o.byz_seed i)),
    timestamp := o.now }

/-- The view carried by the single summary a given agent builds this round:
`_byzantine_agent_summary` for byzantine agents, `_honest_agent_summary`
(the agent's own current local view) for honest ones. -/
def summary_view (net : Network) (o : RoundOracle) (agent : Agent) : DIDView :=
  if agent.is_byzantine then byzantine_fake_view net o agent.agent_id
  else agent.local_view

/-- Phase 1 of `run_round`: the per-peer copies of each agent's summary, in
emission order (agents in population order, then the peer order of the
draw).  All copies of one agent's summary share that agent's single
`summary_view`. -/
def round_messages (net : Network) (o : RoundOracle) : List Message :=
  net.agents.flatMap (fun agent =>
    (o.peers agent.agent_id).map (fun peer_id =>
      { sender := agent.agent_id, receiver := peer_id,
        msg_type := "SUMMARY", view := summary_view net o agent,
        round_num := net.round_num }))

/-- The effect of `_handle_summary` on the receiving agent, paired with
whether the ledger was queried (so that the caller can mirror the twin
`receiver.ledger_queries += 1` / `self.total_ledger_queries += 1` updates). -/
def receive_summary (led : DIDView) (now : Int) (receiver : Agent)
    (sender_view : DIDView) : Agent × Bool :=
  let receiver := { receiver with messages_received := receiver.messages_received + 1 }
  if receiver.is_byzantine then
    (receiver, false)
  else
    if sender_view.version > receiver.local_view.version then
      ({ receiver with
          ledger_queries := receiver.ledger_queries + 1,
          local_view :=
            { did := led.did, version := led.version,
              doc_hash := led.doc_hash, timestamp := now } }, true)
    else if sender_view.version = receiver.local_view.version then
      if sender_view.doc_hash ≠ receiver.local_view.doc_hash then
        ({ receiver with
            ledger_queries := receiver.ledger_queries + 1,
            local_view :=
              { did := led.did, version := led.version,
                doc_hash := led.doc_hash, timestamp := now } }, true)
      else (receiver, false)
    else (receiver, false)

/-- `BFTMVDIDNetwork._handle_summary` lifted to the network state; `ridx` is
the index of the receiving agent in the population list. -/
def handle_summary (net : Network) (ridx : Nat) (summary : Message)
    (now : Int) : Network :=
  match net.agents[ridx]? with
  | none => net
  | some receiver =>
    let step := receive_summary net.ledger_view now receiver summary.view
    { net with
      agents := net.agents.set ridx step.1,
      total_ledger_queries :=
        net.total_ledger_queries + (if step.2 then 1 else 0) }

/-- Phase 2 of `run_round`: messages delivered one at a time, in order. -/
def deliver_msgs (net : Network) (msgs : List Message) (now : Int) : Network :=
  msgs.foldl (fun n m => handle_summary n m.receiver m now) net

/-- The counter updates of phase 1 of `run_round`: each agent records its
fresh peer draw and its sent counter grows by one per peer, and the network
total grows by the whole round's emission count. -/
def phase1_counters (net : Network) (o : RoundOracle) : Network :=
  { net with
    agents := net.agents.map (fun a =>
      { a with
        peers := o.peers a.agent_id,
        messages_sent := a.messages_sent + (o.peers a.agent_id).length }),
    total_messages := net.total_messages +
      ((net.agents.map (fun a => (o.peers a.agent_id).length)).sum) }

/-- `BFTMVDIDNetwork.check_convergence`: all honest agents must equal the
ledger view (under `viewEq`); on first success the convergence round is
recorded. -/
def Network.check_convergence (net : Network) : Bool × Network :=
  let honest_agents := net.agents.filter (fun a => !a.is_byzantine)
  if honest_agents.all (fun a => viewEq a.local_view net.ledger_view) then
    if net.convergence_round = none then
      (true, { net with convergence_round := some net.round_num })
    else
      (true, net)
  else
    (false, net)

/-- `BFTMVDIDNetwork.run_round`: bump the round counter, emit all summaries
from the pre-round views, deliver them in order, then check convergence. -/
def Network.run_round (net : Network) (o : RoundOracle) : Bool × Network :=
  let net1 : Network := { net with round_num := net.round_num + 1 }
  let msgs := round_messages net1 o
  (deliver_msgs (phase1_counters net1 o) msgs o.now).check_convergence

/-- `r` executed rounds, each with its own random draws. -/
def run_rounds (net : Network) (os : Nat → RoundOracle) : Nat → Network
  | 0 => net
  | r + 1 => ((run_rounds net os r).run_round (os r)).2

/-- The loop of `run_until_convergence`: up to `fuel` rounds, stopping at the
first converged one. -/
def run_loop (net : Network) (os : Nat → RoundOracle) : Nat → Network
  | 0 => net
  | fuel + 1 =>
    let res := net.run_round (os net.round_num)
    if res.1 then res.2 else run_loop res.2 os fuel

/-- The sum, over the population, of the per-agent sent counters. -/
def sent_sum (net : Network) : Nat :=
  (net.agents.map (fun a => a.messages_sent)).sum

/-- The per-trial statistics record built by `get_statistics`.  Python float
averages are modelled as exact rationals. -/
structure Stats where
  n_agents : Nat
  f_byzantine : Nat
  fanout : Nat
  rounds : Nat
  converged : Bool
  convergence_round : Option Nat
  total_messages : Nat
  total_ledger_queries : Nat
  avg_messages_per_agent : ℚ
  avg_ledger_queries_per_agent : ℚ
  honest_agents : Nat
  byzantine_agents : Nat
deriving DecidableEq, Repr

/-- `BFTMVDIDNetwork.get_statistics`. -/
def Network.get_statistics (net : Network) : Stats :=
  let honest_agents := net.agents.filter (fun a => !a.is_byzantine)
  { n_agents := net.n_agents, f_byzantine := net.f_byzantine,
    fanout := net.fanout, rounds := net.round_num,
    converged := net.convergence_round.isSome,
    convergence_round := net.convergence_round,
    total_messages := net.total_messages,
    total_ledger_queries := net.total_ledger_queries,
    avg_messages_per_agent := (net.total_messages : ℚ) / (net.n_agents : ℚ),
    avg_ledger_queries_per_agent :=
      (net.total_ledger_queries : ℚ) / (net.n_agents : ℚ),
    honest_agents := honest_agents.length,
    byzantine_agents := net.f_byzantine }

/-- `BFTMVDIDNetwork.run_until_convergence`: run up to `max_rounds` rounds,
stopping at the first converged one, then export statistics. -/
def Network.run_until_convergence (net : Network) (os : Nat → RoundOracle)
    (max_rounds : Nat := 50) : Stats :=
  (run_loop net os max_rounds).get_statistics

/-- The whole random source consumed by one trial of `run_experiment`:
the construction draws plus one `RoundOracle` per executed round. -/
structure TrialOracle where
  ic : InitChoice
  rounds : Nat → RoundOracle

/-- One trial of the driver loop: a fresh network, run to convergence with
the 50-round budget. -/
def run_trial (n f fanout : Nat) (t : TrialOracle) : Stats :=
  (Network.init n f fanout "did:example:123" t.ic).run_until_convergence t.rounds 50

/-- One aggregated result record of `run_experiment`; `f_frac` is the
`f_ratio` of the swept configuration (Python floats modelled as exact
rationals). -/
structure ResultRecord where
  n : Nat
  f : Nat
  f_frac : ℚ
  fanout : Nat
  trials : Nat
  convergence_rate : ℚ
  avg_convergence_round : Option ℚ
  avg_total_messages : ℚ
  avg_ledger_queries : ℚ
  trial_results : List Stats
deriving DecidableEq, Repr

/-- `run_experiment`: sweep `(n, f_frac)` pairs, skip those with
`f >= n / 3`, run `trials` fresh trials for the rest, then aggregate.
The aggregation divides the sum of convergence rounds of converged trials
by the number of converged trials; with no converged trial Python raises
`ZeroDivisionError`, modelled as `Except.error`.  The `avg == avg` NaN
guard of the source is kept verbatim.  `oracle n frac trial` supplies the
random source of each trial. -/
def run_experiment (n_values : List Nat) (f_fracs : List ℚ)
    (fanout : Nat) (trials : Nat) (oracle : Nat → ℚ → Nat → TrialOracle) :
    Except String (List ResultRecord) :=
  n_values.foldlM (fun (results : List ResultRecord) (n : Nat) =>
    f_fracs.foldlM (fun (results : List ResultRecord) (frac : ℚ) =>
      let f := (⌊(n : ℚ) * frac⌋).toNat
      if (f : ℚ) ≥ (n : ℚ) / 3 then
        pure results
      else
        let trial_results := (List.range trials).map (fun trial =>
          run_trial n f fanout (oracle n frac trial))
        let conv := trial_results.filter (fun r => r.converged)
        if conv.length = 0 then
          Except.error "ZeroDivisionError: division by zero"
        else
          let avg_convergence :=
            ((conv.map (fun r => ((r.convergence_round.getD 0 : Nat) : ℚ))).sum)
              / (conv.length : ℚ)
          pure (results ++ [{
            n := n, f := f, f_frac := frac, fanout := fanout, trials := trials,
            convergence_rate := (conv.length : ℚ) / (trials : ℚ),
            avg_convergence_round :=
              if avg_convergence = avg_convergence then some avg_convergence
              else none,
            avg_total_messages :=
              ((trial_results.map (fun r => (r.total_messages : ℚ))).sum)
                / (trials : ℚ),
            avg_ledger_queries :=
              ((trial_results.map (fun r => (r.total_ledger_queries : ℚ))).sum)
                / (trials : ℚ),
            trial_results := trial_results }])) results) []

/-- A network with all local-view timestamps and the ledger timestamp
replaced (per agent id for the agents), used to state that timestamps never
influence the convergence check. -/
def retime_net (net : Network) (tl : Int) (t : Nat → Int) : Network :=
  { net with
    agents := net.agents.map (fun a =>
      { a with local_view := retimeView a.local_view (t a.agent_id) }),
    ledger_view := retimeView net.ledger_view tl }

/-! ### Basic lemmas about views and agents -/

theorem viewEq_iff (a b : DIDView) :
    viewEq a b = true ↔
      a.did = b.did ∧ a.version = b.version ∧ a.doc_hash = b.doc_hash := by
  simp [viewEq, Bool.and_eq_true, and_assoc]

theorem viewEq_refl (a : DIDView) : viewEq a a = true := by
  simp [viewEq_iff]

theorem viewEq_symm {a b : DIDView} (h : viewEq a b = true) : viewEq b a = true := by
  rw [viewEq_iff] at h ⊢
  exact ⟨h.1.symm, h.2.1.symm, h.2.2.symm⟩

theorem viewEq_trans {a b c : DIDView} (h1 : viewEq a b = true)
    (h2 : viewEq b c = true) : viewEq a c = true := by
  rw [viewEq_iff] at h1 h2 ⊢
  exact ⟨h1.1.trans h2.1, h1.2.1.trans h2.2.1, h1.2.2.trans h2.2.2⟩

theorem viewEq_retime_both (a b : DIDView) (t s : Int) :
    viewEq (retimeView a t) (retimeView b s) = viewEq a b := by
  simp [viewEq, retimeView]

theorem viewEq_retime_left (a : DIDView) (t : Int) :
    viewEq (retimeView a t) a = true := by
  simp [viewEq_iff, retimeView]

theorem is_byzantine_of_type {a b : Agent} (h : a.agent_type = b.agent_type) :
    a.is_byzantine = b.is_byzantine := by
  simp [Agent.is_byzantine, h]

/-- Full characterization of `receive_summary`: which fields change, how the
counters move, and the case analysis of the update rule. -/
theorem receive_summary_spec (led : DIDView) (now : Int) (r : Agent)
    (sv : DIDView) :
    (receive_summary led now r sv).1.agent_id = r.agent_id ∧
    (receive_summary led now r sv).1.agent_type = r.agent_type ∧
    (receive_summary led now r sv).1.peers = r.peers ∧
    (receive_summary led now r sv).1.messages_sent = r.messages_sent ∧
    (receive_summary led now r sv).1.messages_received = r.messages_received + 1 ∧
    ((receive_summary led now r sv).1.local_view = r.local_view ∨
      (r.is_byzantine = false ∧
        (receive_summary led now r sv).1.local_view = retimeView led now)) := by
  unfold receive_summary
  by_cases hb : r.is_byzantine
  · simp [hb, Agent.is_byzantine] at *
    simp [hb]
  · simp only [Agent.is_byzantine] at hb ⊢
    by_cases h1 : sv.version > r.local_view.version
    · simp [hb, h1, retimeView]
    · by_cases h2 : sv.version = r.local_view.version
      · by_cases h3 : sv.doc_hash ≠ r.local_view.doc_hash
        · simp [hb, h1, h2, h3, retimeView]
        · simp [hb, h1, h2, h3]
      · simp [hb, h1, h2]

/-! ### Preservation lemmas for message handling -/

theorem map_set_of_eq {α β : Type} (f : α → β) :
    ∀ (l : List α) (i : Nat) (a b : α), l[i]? = some b → f a = f b →
      (l.set i a).map f = l.map f := by
  intro l
  induction l with
  | nil => intro i a b h _; simp at h
  | cons x xs ih =>
    intro i a b h hf
    cases i with
    | zero =>
      simp at h
      subst h
      simp [List.set, hf]
    | succ j =>
      simp at h
      simp [List.set, ih j a b h hf]

theorem handle_summary_ledger (net : Network) (ridx : Nat) (m : Message)
    (now : Int) : (handle_summary net ridx m now).ledger_view = net.ledger_view := by
  unfold handle_summary
  cases net.agents[ridx]? <;> simp

theorem handle_summary_round_num (net : Network) (ridx : Nat) (m : Message)
    (now : Int) : (handle_summary net ridx m now).round_num = net.round_num := by
  unfold handle_summary
  cases net.agents[ridx]? <;> simp

theorem handle_summary_total_messages (net : Network) (ridx : Nat) (m : Message)
    (now : Int) :
    (handle_summary net ridx m now).total_messages = net.total_messages := by
  unfold handle_summary
  cases net.agents[ridx]? <;> simp

theorem handle_summary_convergence_round (net : Network) (ridx : Nat)
    (m : Message) (now : Int) :
    (handle_summary net ridx m now).convergence_round = net.convergence_round := by
  unfold handle_summary
  cases net.agents[ridx]? <;> simp

theorem handle_summary_n_agents (net : Network) (ridx : Nat) (m : Message)
    (now : Int) : (handle_summary net ridx m now).n_agents = net.n_agents := by
  unfold handle_summary
  cases net.agents[ridx]? <;> simp

theorem handle_summary_fanout (net : Network) (ridx : Nat) (m : Message)
    (now : Int) : (handle_summary net ridx m now).fanout = net.fanout := by
  unfold handle_summary
  cases net.agents[ridx]? <;> simp

theorem handle_summary_map (net : Network) (ridx : Nat) (m : Message)
    (now : Int) {β : Type} (f : Agent → β)
    (hf : ∀ (led : DIDView) (t : Int) (r : Agent) (sv : DIDView),
      f (receive_summary led t r sv).1 = f r) :
    (handle_summary net ridx m now).agents.map f = net.agents.map f := by
  unfold handle_summary
  cases h : net.agents[ridx]? with
  | none => simp
  | some r =>
    simp only
    exact map_set_of_eq f net.agents ridx _ r h (hf _ _ _ _)

theorem handle_summary_length (net : Network) (ridx : Nat) (m : Message)
    (now : Int) :
    (handle_summary net ridx m now).agents.length = net.agents.length := by
  unfold handle_summary
  cases net.agents[ridx]? <;> simp

/-- Positional characterization of a single delivery: every agent keeps its
identity, role, sent counter and peer list, and its view is either untouched
or (when honest) replaced by the re-stamped ledger view. -/
theorem handle_summary_get? (net : Network) (ridx : Nat) (m : Message)
    (now : Int) (i : Nat) (a : Agent) (h : net.agents[i]? = some a) :
    ∃ a', (handle_summary net ridx m now).agents[i]? = some a' ∧
      a'.agent_id = a.agent_id ∧ a'.agent_type = a.agent_type ∧
      a'.peers = a.peers ∧ a'.messages_sent = a.messages_sent ∧
      (a'.local_view = a.local_view ∨
        (a.is_byzantine = false ∧
          a'.local_view = retimeView net.ledger_view now)) := by
  unfold handle_summary
  cases hr : net.agents[ridx]? with
  | none => exact ⟨a, by simp [h]⟩
  | some r =>
    by_cases hi : i = ridx
    · subst hi
      have hir : a = r := by rw [h] at hr; exact Option.some.inj hr
      subst hir
      have hlt : i < net.agents.length := (List.getElem?_eq_some.mp h).1
      have hspec := receive_summary_spec net.ledger_view now a m.view
      refine ⟨(receive_summary net.ledger_view now a m.view).1, ?_, ?_, ?_, ?_, ?_, ?_⟩
      · simp only
        rw [List.getElem?_set_self hlt]
      · exact hspec.1
      · exact hspec.2.1
      · exact hspec.2.2.1
      · exact hspec.2.2.2.1
      · exact hspec.2.2.2.2.2
    · refine ⟨a, ?_, rfl, rfl, rfl, rfl, Or.inl rfl⟩
      simp only
      rw [List.getElem?_set_ne (fun hh => hi hh.symm)]
      exact h

theorem deliver_msgs_ledger (msgs : List Message) :
    ∀ (net : Network) (now : Int),
      (deliver_msgs net msgs now).ledger_view = net.ledger_view := by
  induction msgs with
  | nil => intro net now; rfl
  | cons m ms ih =>
    intro net now
    show (deliver_msgs (handle_summary net m.receiver m now) ms now).ledger_view = _
    rw [ih, handle_summary_ledger]

theorem deliver_msgs_round_num (msgs : List Message) :
    ∀ (net : Network) (now : Int),
      (deliver_msgs net msgs now).round_num = net.round_num := by
  induction msgs with
  | nil => intro net now; rfl
  | cons m ms ih =>
    intro net now
    show (deliver_msgs (handle_summary net m.receiver m now) ms now).round_num = _
    rw [ih, handle_summary_round_num]

theorem deliver_msgs_total_messages (msgs : List Message) :
    ∀ (net : Network) (now : Int),
      (deliver_msgs net msgs now).total_messages = net.total_messages := by
  induction msgs with
  | nil => intro net now; rfl
  | cons m ms ih =>
    intro net now
    show (deliver_msgs (handle_summary net m.receiver m now) ms now).total_messages = _
    rw [ih, handle_summary_total_messages]

theorem deliver_msgs_convergence_round (msgs : List Message) :
    ∀ (net : Network) (now : Int),
      (deliver_msgs net msgs now).convergence_round = net.convergence_round := by
  induction msgs with
  | nil => intro net now; rfl
  | cons m ms ih =>
    intro net now
    show (deliver_msgs (handle_summary net m.receiver m now) ms now).convergence_round = _
    rw [ih, handle_summary_convergence_round]

theorem deliver_msgs_n_agents (msgs : List Message) :
    ∀ (net : Network) (now : Int),
      (deliver_msgs net msgs now).n_agents = net.n_agents := by
  induction msgs with
  | nil => intro net now; rfl
  | cons m ms ih =>
    intro net now
    show (deliver_msgs (handle_summary net m.receiver m now) ms now).n_agents = _
    rw [ih, handle_summary_n_agents]

theorem deliver_msgs_fanout (msgs : List Message) :
    ∀ (net : Network) (now : Int),
      (deliver_msgs net msgs now).fanout = net.fanout := by
  induction msgs with
  | nil => intro net now; rfl
  | cons m ms ih =>
    intro net now
    show (deliver_msgs (handle_summary net m.receiver m now) ms now).fanout = _
    rw [ih, handle_summary_fanout]

theorem deliver_msgs_map (msgs : List Message) {β : Type} (f : Agent → β)
    (hf : ∀ (led : DIDView) (t : Int) (r : Agent) (sv : DIDView),
      f (receive_summary led t r sv).1 = f r) :
    ∀ (net : Network) (now : Int),
      (deliver_msgs net msgs now).agents.map f = net.agents.map f := by
  induction msgs with
  | nil => intro net now; rfl
  | cons m ms ih =>
    intro net now
    show (deliver_msgs (handle_summary net m.receiver m now) ms now).agents.map f = _
    rw [ih, handle_summary_map _ _ _ _ f hf]

theorem deliver_msgs_length (msgs : List Message) :
    ∀ (net : Network) (now : Int),
      (deliver_msgs net msgs now).agents.length = net.agents.length := by
  induction msgs with
  | nil => intro net now; rfl
  | cons m ms ih =>
    intro net now
    show (deliver_msgs (handle_summary net m.receiver m now) ms now).agents.length = _
    rw [ih, handle_summary_length]

/-- Positional characterization of a whole delivery phase: iterating
`handle_summary` keeps each agent's identity, role, sent counter, and leaves
its view either untouched or (when honest) equal to the ledger view
re-stamped with the round's time. -/
theorem deliver_msgs_get? (msgs : List Message) :
    ∀ (net : Network) (now : Int) (i : Nat) (a : Agent),
      net.agents[i]? = some a →
      ∃ a', (deliver_msgs net msgs now).agents[i]? = some a' ∧
        a'.agent_id = a.agent_id ∧ a'.agent_type = a.agent_type ∧
        a'.messages_sent = a.messages_sent ∧
        (a'.local_view = a.local_view ∨
          (a.is_byzantine = false ∧
            a'.local_view = retimeView net.ledger_view now)) := by
  induction msgs with
  | nil => intro net now i a h; exact ⟨a, h, rfl, rfl, rfl, Or.inl rfl⟩
  | cons m ms ih =>
    intro net now i a h
    obtain ⟨a1, h1, hid1, hty1, _, hsent1, hview1⟩ :=
      handle_summary_get? net m.receiver m now i a h
    obtain ⟨a2, h2, hid2, hty2, hsent2, hview2⟩ :=
      ih (handle_summary net m.receiver m now) now i a1 h1
    refine ⟨a2, h2, hid2.trans hid1, hty2.trans hty1, hsent2.trans hsent1, ?_⟩
    have hbyz : a1.is_byzantine = a.is_byzantine := is_byzantine_of_type hty1
    rcases hview2 with h2v | ⟨h2b, h2v⟩
    · rw [h2v]
      exact hview1
    · right
      refine ⟨by rw [← hbyz]; exact h2b, ?_⟩
      rw [h2v, handle_summary_ledger]

/-! ### Lemmas about the convergence check and phase 1 -/

/-- The network returned by `check_convergence` is the input, with at most
the convergence round recorded. -/
theorem check_convergence_snd (net : Network) :
    (net.check_convergence).2 = net ∨
    (net.check_convergence).2 =
      { net with convergence_round := some net.round_num } := by
  unfold Network.check_convergence
  by_cases h1 : (net.agents.filter (fun a => !a.is_byzantine)).all
      (fun a => viewEq a.local_view net.ledger_view) = true
  · by_cases h2 : net.convergence_round = none
    · right; simp [h1, h2]
    · left; simp [h1, h2]
  · left; simp [h1]

theorem check_convergence_agents (net : Network) :
    (net.check_convergence).2.agents = net.agents := by
  rcases check_convergence_snd net with h | h <;> rw [h]

theorem check_convergence_ledger (net : Network) :
    (net.check_convergence).2.ledger_view = net.ledger_view := by
  rcases check_convergence_snd net with h | h <;> rw [h]

theorem check_convergence_round_num (net : Network) :
    (net.check_convergence).2.round_num = net.round_num := by
  rcases check_convergence_snd net with h | h <;> rw [h]

theorem check_convergence_total_messages (net : Network) :
    (net.check_convergence).2.total_messages = net.total_messages := by
  rcases check_convergence_snd net with h | h <;> rw [h]

/-- The boolean returned by `check_convergence` is exactly the `all honest
agents match the ledger` test. -/
theorem check_convergence_fst (net : Network) :
    (net.check_convergence).1 =
      (net.agents.filter (fun a => !a.is_byzantine)).all
        (fun a => viewEq a.local_view net.ledger_view) := by
  unfold Network.check_convergence
  by_cases h1 : (net.agents.filter (fun a => !a.is_byzantine)).all
      (fun a => viewEq a.local_view net.ledger_view) = true
  · rw [h1]
    simp only [h1, if_true]
    by_cases h2 : net.convergence_round = none <;> simp [h2]
  · rw [Bool.not_eq_true] at h1
    rw [h1]
    simp [h1]

theorem check_convergence_fst_iff (net : Network) :
    (net.check_convergence).1 = true ↔
      ∀ a ∈ net.agents, a.is_byzantine = false →
        viewEq a.local_view net.ledger_view = true := by
  rw [check_convergence_fst, List.all_eq_true]
  constructor
  · intro h a ha hb
    exact h a (List.mem_filter.mpr ⟨ha, by simp [hb]⟩)
  · intro h a ha
    obtain ⟨ha1, ha2⟩ := List.mem_filter.mp ha
    exact h a ha1 (by simpa using ha2)

theorem check_convergence_round_of_some (net : Network) (r : Nat)
    (h : net.convergence_round = some r) :
    (net.check_convergence).2.convergence_round = some r := by
  have h2 : ¬ net.convergence_round = none := by rw [h]; simp
  unfold Network.check_convergence
  by_cases h1 : (net.agents.filter (fun a => !a.is_byzantine)).all
      (fun a => viewEq a.local_view net.ledger_view) = true
  · simp only [h1, if_true, h2, if_neg]
    exact h
  · simp only [h1, if_false, Bool.false_eq_true]
    exact h

theorem check_convergence_round_of_none (net : Network)
    (h : net.convergence_round = none)
    (ht : (net.check_convergence).1 = true) :
    (net.check_convergence).2.convergence_round = some net.round_num := by
  rw [check_convergence_fst] at ht
  unfold Network.check_convergence
  simp only [ht, if_true, h, if_pos]

theorem phase1_agents_getElem? (net : Network) (o : RoundOracle) (i : Nat) :
    (phase1_counters net o).agents[i]? = (net.agents[i]?).map (fun a =>
      { a with
        peers := o.peers a.agent_id,
        messages_sent := a.messages_sent + (o.peers a.agent_id).length }) := by
  unfold phase1_counters
  exact List.getElem?_map _ _ _

theorem phase1_ledger (net : Network) (o : RoundOracle) :
    (phase1_counters net o).ledger_view = net.ledger_view := rfl

theorem phase1_round_num (net : Network) (o : RoundOracle) :
    (phase1_counters net o).round_num = net.round_num := rfl

/-- `run_round` unfolded: emission from the round-stamped pre-round state,
delivery, then the convergence check. -/
theorem run_round_eq (net : Network) (o : RoundOracle) :
    net.run_round o =
      (deliver_msgs
        (phase1_counters { net with round_num := net.round_num + 1 } o)
        (round_messages { net with round_num := net.round_num + 1 } o)
        o.now).check_convergence := rfl

/-! ### Case lemmas for the update rule -/

/-- Escalation case of the update rule: version strictly ahead, or same
version with a different digest. -/
theorem receive_summary_escalate (led : DIDView) (now : Int) (r : Agent)
    (sv : DIDView) (hhon : r.is_byzantine = false)
    (hcase : sv.version > r.local_view.version ∨
      (sv.version = r.local_view.version ∧
        sv.doc_hash ≠ r.local_view.doc_hash)) :
    receive_summary led now r sv =
      ({ r with
          messages_received := r.messages_received + 1,
          ledger_queries := r.ledger_queries + 1,
          local_view := retimeView led now }, true) := by
  have hb : ({ r with messages_received := r.messages_received + 1} : Agent).is_byzantine = false := hhon
  rcases hcase with h1 | ⟨h2, h3⟩
  · simp [receive_summary, hb, h1, retimeView]
  · have h1 : ¬ sv.version > r.local_view.version := by omega
    simp [receive_summary, hb, h1, h2, h3, retimeView]

/-- No-op case of the update rule: version strictly behind, or same version
with the same digest (this also covers byzantine receivers, which never
update). -/
theorem receive_summary_noop (led : DIDView) (now : Int) (r : Agent)
    (sv : DIDView)
    (hcase : sv.version < r.local_view.version ∨
      (sv.version = r.local_view.version ∧
        sv.doc_hash = r.local_view.doc_hash)) :
    receive_summary led now r sv =
      ({ r with messages_received := r.messages_received + 1 }, false) := by
  by_cases hb : ({ r with messages_received := r.messages_received + 1} : Agent).is_byzantine
  · simp [receive_summary, hb]
  · rcases hcase with h1 | ⟨h2, h3⟩
    · have hgt : ¬ sv.version > r.local_view.version := by omega
      have heq : ¬ sv.version = r.local_view.version := by omega
      simp [receive_summary, hb, hgt, heq]
    · have hgt : ¬ sv.version > r.local_view.version := by omega
      simp [receive_summary, hb, hgt, h2, h3]

/-- Byzantine receivers only count the message. -/
theorem receive_summary_byzantine (led : DIDView) (now : Int) (r : Agent)
    (sv : DIDView) (hb : r.is_byzantine = true) :
    receive_summary led now r sv =
      ({ r with messages_received := r.messages_received + 1 }, false) := by
  have hb' : ({ r with messages_received := r.messages_received + 1} : Agent).is_byzantine = true := hb
  simp [receive_summary, hb']

/-- Delivery to a valid index rewrites to the agent-level step. -/
theorem handle_summary_eq_of_getElem? (net : Network) (ridx : Nat)
    (m : Message) (now : Int) (r : Agent) (h : net.agents[ridx]? = some r) :
    handle_summary net ridx m now =
      { net with
        agents := net.agents.set ridx (receive_summary net.ledger_view now r m.view).1,
        total_ledger_queries := net.total_ledger_queries +
          (if (receive_summary net.ledger_view now r m.view).2 then 1 else 0) } := by
  unfold handle_summary
  rw [h]

/-! ### C1: the three delivery cases at an honest receiver -/

/-- C1: delivering a Summary to an honest receiver either escalates (carried
version strictly greater, or equal version with a differing digest): both
the receiver's and the network's ledger-query counters grow by one and the
receiver adopts the ground-truth view re-stamped with the current time; or
(version strictly less, or equal version with matching digest) leaves the
view and both ledger-query counters unchanged. -/
theorem handle_summary_cases (net : Network) (ridx : Nat) (msg : Message)
    (now : Int) (receiver : Agent)
    (hget : net.agents[ridx]? = some receiver)
    (hhon : receiver.is_byzantine = false) :
    ∃ receiver',
      (handle_summary net ridx msg now).agents[ridx]? = some receiver' ∧
      receiver'.messages_received = receiver.messages_received + 1 ∧
      ((msg.view.version > receiver.local_view.version ∨
        (msg.view.version = receiver.local_view.version ∧
          msg.view.doc_hash ≠ receiver.local_view.doc_hash)) →
        receiver'.ledger_queries = receiver.ledger_queries + 1 ∧
        (handle_summary net ridx msg now).total_ledger_queries
          = net.total_ledger_queries + 1 ∧
        receiver'.local_view = retimeView net.ledger_view now) ∧
      ((msg.view.version < receiver.local_view.version ∨
        (msg.view.version = receiver.local_view.version ∧
          msg.view.doc_hash = receiver.local_view.doc_hash)) →
        receiver'.ledger_queries = receiver.ledger_queries ∧
        (handle_summary net ridx msg now).total_ledger_queries
          = net.total_ledger_queries ∧
        receiver'.local_view = receiver.local_view) := by
  have hlt : ridx < net.agents.length := (List.getElem?_eq_some.mp hget).1
  rw [handle_summary_eq_of_getElem? net ridx msg now receiver hget]
  refine ⟨(receive_summary net.ledger_view now receiver msg.view).1, ?_, ?_, ?_, ?_⟩
  · simp only
    rw [List.getElem?_set_self (by simpa using hlt)]
  · exact (receive_summary_spec net.ledger_view now receiver msg.view).2.2.2.2.1
  · intro hcase
    rw [receive_summary_escalate net.ledger_view now receiver msg.view hhon hcase]
    simp
  · intro hcase
    rw [receive_summary_noop net.ledger_view now receiver msg.view hcase]
    simp

/-! ### Concrete instances used by the witnesses -/

def wLedger : DIDView :=
  { did := "did:example:123", version := 10,
    doc_hash := compute_hash "ledger_doc_v10", timestamp := 0 }

def wStale8 : DIDView :=
  { did := "did:example:123", version := 8,
    doc_hash := compute_hash "ledger_doc_v8", timestamp := 0 }

def wHonest0 : Agent :=
  { agent_id := 0, agent_type := AgentType.honest, local_view := wStale8 }

def wNet1 : Network :=
  { n_agents := 1, f_byzantine := 0, fanout := 0, did := "did:example:123",
    agents := [wHonest0], ledger_view := wLedger,
    round_num := 0, total_messages := 0, total_ledger_queries := 0,
    convergence_round := none }

def wMsg9 : Message :=
  { sender := 1, receiver := 0, msg_type := "SUMMARY",
    view := { did := "did:example:123", version := 9,
              doc_hash := compute_hash "ledger_doc_v9", timestamp := 3 },
    round_num := 1 }

theorem handle_summary_cases_witness :
    (handle_summary wNet1 0 wMsg9 7).total_ledger_queries = 1 := by
  obtain ⟨r', _, _, hesc, _⟩ :=
    handle_summary_cases wNet1 0 wMsg9 7 wHonest0 (by decide) (by decide)
  exact (hesc (Or.inl (by decide))).2.1

/-! ### C6: timestamps never participate in equality, convergence or
conflict detection -/

theorem all_eq_of_pointwise {α : Type} {p q : α → Bool} :
    ∀ l : List α, (∀ a ∈ l, p a = q a) → l.all p = l.all q := by
  intro l h
  rw [Bool.eq_iff_iff, List.all_eq_true, List.all_eq_true]
  exact ⟨fun hp a ha => (h a ha) ▸ hp a ha,
    fun hq a ha => (h a ha).symm ▸ hq a ha⟩

/-- C6: view equality holds exactly when subject, version and digest all
match; re-stamping either side never changes it; the update rule of
`_handle_summary` is blind to the carried view's timestamp; and the
convergence check is blind to every stored timestamp. -/
theorem viewEq_timestamp_free :
    (∀ a b : DIDView, viewEq a b = true ↔
      a.did = b.did ∧ a.version = b.version ∧ a.doc_hash = b.doc_hash) ∧
    (∀ (a b : DIDView) (t s : Int),
      viewEq (retimeView a t) (retimeView b s) = viewEq a b) ∧
    (∀ (net : Network) (ridx : Nat) (msg : Message) (now s : Int),
      handle_summary net ridx { msg with view := retimeView msg.view s } now =
        handle_summary net ridx msg now) ∧
    (∀ (net : Network) (tl : Int) (t : Nat → Int),
      ((retime_net net tl t).check_convergence).1 =
        (net.check_convergence).1) := by
  refine ⟨viewEq_iff, viewEq_retime_both, ?_, ?_⟩
  · intro net ridx msg now s
    rfl
  · intro net tl t
    rw [check_convergence_fst, check_convergence_fst]
    show ((net.agents.map (fun a =>
        { a with local_view := retimeView a.local_view (t a.agent_id) })).filter
          (fun a => !a.is_byzantine)).all
        (fun a => viewEq a.local_view (retimeView net.ledger_view tl)) = _
    rw [List.filter_map, List.all_map]
    exact all_eq_of_pointwise _ (fun a _ => viewEq_retime_both _ _ _ _)

def w6a : DIDView :=
  { did := "did:example:123", version := 10,
    doc_hash := compute_hash "ledger_doc_v10", timestamp := 42 }

theorem viewEq_timestamp_free_witness : viewEq w6a wLedger = true := by
  have h := viewEq_timestamp_free.1 w6a wLedger
  exact h.mpr ⟨rfl, rfl, rfl⟩

/-! ### C7: the convergence round is set at most once -/

/-- C7: `check_convergence` reports converged exactly when every honest
agent matches ground truth; an already-set convergence round is never
changed by a check; a successful first check records the current round; and
a repeated check still reports converged with the same recorded round. -/
theorem convergence_round_set_once (net : Network) :
    (∀ r : Nat, net.convergence_round = some r →
      (net.check_convergence).2.convergence_round = some r) ∧
    (net.convergence_round = none → (net.check_convergence).1 = true →
      (net.check_convergence).2.convergence_round = some net.round_num) ∧
    ((net.check_convergence).1 = true →
      ((net.check_convergence).2.check_convergence).1 = true ∧
      ((net.check_convergence).2.check_convergence).2.convergence_round =
        (net.check_convergence).2.convergence_round) ∧
    ((net.check_convergence).1 = true ↔
      ∀ a ∈ net.agents, a.is_byzantine = false →
        viewEq a.local_view net.ledger_view = true) := by
  refine ⟨fun r h => check_convergence_round_of_some net r h,
    fun h ht => check_convergence_round_of_none net h ht, ?_,
    check_convergence_fst_iff net⟩
  intro ht
  have hfst2 : ((net.check_convergence).2.check_convergence).1 = true := by
    rw [check_convergence_fst_iff] at ht ⊢
    rw [check_convergence_agents, check_convergence_ledger]
    exact ht
  refine ⟨hfst2, ?_⟩
  cases hcr : net.convergence_round with
  | some r =>
    have hm := check_convergence_round_of_some net r hcr
    rw [check_convergence_round_of_some _ r hm, hm]
  | none =>
    have hm := check_convergence_round_of_none net hcr ht
    rw [check_convergence_round_of_some _ _ hm, hm]

def wConvAgent : Agent :=
  { agent_id := 0, agent_type := AgentType.honest,
    local_view := { wLedger with timestamp := 99 } }

def wNetConv : Network :=
  { n_agents := 1, f_byzantine := 0, fanout := 0, did := "did:example:123",
    agents := [wConvAgent], ledger_view := wLedger,
    round_num := 4, total_messages := 0, total_ledger_queries := 0,
    convergence_round := none }

theorem convergence_round_set_once_witness :
    (wNetConv.check_convergence).2.convergence_round = some 4 :=
  (convergence_round_set_once wNetConv).2.1 rfl (by decide)

/-! ### C2: conservative adoption -/

/-- C2: whatever messages a round delivers, an honest agent ends the round
holding either its pre-round local view or (up to re-stamping) the
ground-truth view; it never ends holding anything else, in particular never
a byzantine fabrication. -/
theorem conservative_adoption (net : Network) (o : RoundOracle) (i : Nat)
    (a : Agent) (hget : net.agents[i]? = some a)
    (hhon : a.is_byzantine = false) :
    ∃ a', (net.run_round o).2.agents[i]? = some a' ∧
      (a'.local_view = a.local_view ∨
        viewEq a'.local_view net.ledger_view = true) := by
  rw [run_round_eq]
  have hpg : (phase1_counters { net with round_num := net.round_num + 1 } o).agents[i]?
      = some ({ a with
          peers := o.peers a.agent_id,
          messages_sent := a.messages_sent + (o.peers a.agent_id).length }) := by
    rw [phase1_agents_getElem?]
    show (net.agents[i]?).map _ = _
    rw [hget]
    rfl
  obtain ⟨a', h1, _, hty, _, hview⟩ :=
    deliver_msgs_get?
      (round_messages { net with round_num := net.round_num + 1 } o)
      (phase1_counters { net with round_num := net.round_num + 1 } o)
      o.now i _ hpg
  refine ⟨a', ?_, ?_⟩
  · rw [check_convergence_agents]
    exact h1
  · rcases hview with hv | ⟨_, hv⟩
    · left; exact hv
    · right
      rw [hv]
      exact viewEq_retime_left _ _

def wO : RoundOracle :=
  { peers := fun _ => [], byz_version := fun _ => 12,
    byz_seed := fun _ => 0, now := 50 }

theorem conservative_adoption_witness :
    ∃ a', ((wNet1.run_round wO).2).agents[0]? = some a' ∧
      (a'.local_view = wHonest0.local_view ∨
        viewEq a'.local_view wNet1.ledger_view = true) :=
  conservative_adoption wNet1 wO 0 wHonest0 (by decide) (by decide)

/-! ### C10: an all-byzantine population converges vacuously -/

theorem mem_map_eq_of_map_eq {α β : Type} {l1 l2 : List α} (f : α → β)
    (h : l1.map f = l2.map f) (a : α) (ha : a ∈ l1) :
    ∃ b ∈ l2, f b = f a := by
  have hm : f a ∈ l1.map f := List.mem_map_of_mem f ha
  rw [h] at hm
  obtain ⟨b, hb, hfb⟩ := List.mem_map.mp hm
  exact ⟨b, hb, hfb⟩

theorem init_agents_byzantine (n f fanout : Nat) (did : String)
    (c : InitChoice) (hall : ∀ i, i < n → i ∈ c.byzantine_ids) :
    ∀ a ∈ (Network.init n f fanout did c).agents, a.is_byzantine = true := by
  intro a ha
  simp only [Network.init, List.mem_map, List.mem_range] at ha
  obtain ⟨i, hi, rfl⟩ := ha
  rw [if_pos (hall i hi)]
  rfl

theorem phase1_map_type (net : Network) (o : RoundOracle) :
    (phase1_counters net o).agents.map (fun a => a.agent_type) =
      net.agents.map (fun a => a.agent_type) := by
  show (net.agents.map _).map _ = _
  rw [List.map_map]
  rfl

theorem phase1_convergence_round (net : Network) (o : RoundOracle) :
    (phase1_counters net o).convergence_round = net.convergence_round := rfl

/-- The multiset of roles never changes during a round's deliveries. -/
theorem deliver_msgs_map_type (msgs : List Message) (net : Network)
    (now : Int) :
    (deliver_msgs net msgs now).agents.map (fun a => a.agent_type) =
      net.agents.map (fun a => a.agent_type) :=
  deliver_msgs_map msgs (fun a => a.agent_type)
    (fun led t r sv => (receive_summary_spec led t r sv).2.1) net now

/-- With no honest agent, any round ends with a vacuously true convergence
check; the first such round records itself as the convergence round. -/
theorem run_round_all_byzantine (net : Network) (o : RoundOracle)
    (hbyz : ∀ a ∈ net.agents, a.is_byzantine = true)
    (hcr : net.convergence_round = none) :
    (net.run_round o).1 = true ∧
    (net.run_round o).2.convergence_round = some (net.round_num + 1) ∧
    (net.run_round o).2.round_num = net.round_num + 1 := by
  rw [run_round_eq]
  set net1 : Network := { net with round_num := net.round_num + 1 } with hnet1
  set msgs := round_messages net1 o with hmsgs
  have hmap : (deliver_msgs (phase1_counters net1 o) msgs o.now).agents.map
      (fun a => a.agent_type) = net.agents.map (fun a => a.agent_type) := by
    rw [deliver_msgs_map_type, phase1_map_type]
  have hbyz3 : ∀ a ∈ (deliver_msgs (phase1_counters net1 o) msgs o.now).agents,
      a.is_byzantine = true := by
    intro a ha
    obtain ⟨b, hb, hfb⟩ := mem_map_eq_of_map_eq _ hmap a ha
    have hbb := hbyz b hb
    simp only [Agent.is_byzantine] at hbb ⊢
    rw [← hfb]
    exact hbb
  have hfst : ((deliver_msgs (phase1_counters net1 o) msgs o.now).check_convergence).1
      = true := by
    rw [check_convergence_fst_iff]
    intro a ha hfalse
    rw [hbyz3 a ha] at hfalse
    cases hfalse
  have hcr3 : (deliver_msgs (phase1_counters net1 o) msgs o.now).convergence_round
      = none := by
    rw [deliver_msgs_convergence_round, phase1_convergence_round]
    exact hcr
  have hrn3 : (deliver_msgs (phase1_counters net1 o) msgs o.now).round_num
      = net.round_num + 1 := by
    rw [deliver_msgs_round_num]
    rfl
  refine ⟨hfst, ?_, ?_⟩
  · rw [check_convergence_round_of_none _ hcr3 hfst, hrn3]
  · rw [check_convergence_round_num, hrn3]

/-- C10: the constructor accepts `f_byzantine = n_agents`; with every agent
byzantine the honest set is empty, so the first convergence check is
vacuously true: after one round the session reports converged with
convergence round 1, although no honest agent exists. -/
theorem all_byzantine_converges (n fanout : Nat) (did : String)
    (c : InitChoice) (o : RoundOracle)
    (hall : ∀ i, i < n → i ∈ c.byzantine_ids) :
    (∀ a ∈ (Network.init n n fanout did c).agents, a.is_byzantine = true) ∧
    ((Network.init n n fanout did c).run_round o).1 = true ∧
    ((Network.init n n fanout did c).run_round o).2.convergence_round = some 1 ∧
    ((Network.init n n fanout did c).run_round o).2.round_num = 1 := by
  have hbyz := init_agents_byzantine n n fanout did c hall
  have h := run_round_all_byzantine (Network.init n n fanout did c) o hbyz rfl
  exact ⟨hbyz, h.1, h.2.1, h.2.2⟩

def wICByz : InitChoice :=
  { byzantine_ids := [0, 1], byz_version := fun _ => 12,
    stale_version := fun _ => 9, stale_offset := fun _ => 20, now := 0 }

theorem all_byzantine_converges_witness :
    ((Network.init 2 2 1 "did:example:123" wICByz).run_round wO).1 = true ∧
    ((Network.init 2 2 1 "did:example:123" wICByz).run_round wO).2.convergence_round
      = some 1 := by
  have h := all_byzantine_converges 2 1 "did:example:123" wICByz wO (by decide)
  exact ⟨h.2.1, h.2.2.1⟩

/-! ### C8: a round is idempotent on a converged state -/

theorem phase1_length (net : Network) (o : RoundOracle) :
    (phase1_counters net o).agents.length = net.agents.length := by
  show (net.agents.map _).length = _
  rw [List.length_map]

/-- Positional tracking of one whole round (phase 1 then delivery): the role
is stable and the view is either the pre-round one or the re-stamped ledger
view. -/
theorem round_agents_getElem? (net : Network) (o : RoundOracle) (i : Nat)
    (a : Agent) (hget : net.agents[i]? = some a) :
    ∃ a', (deliver_msgs
        (phase1_counters { net with round_num := net.round_num + 1 } o)
        (round_messages { net with round_num := net.round_num + 1 } o)
        o.now).agents[i]? = some a' ∧
      a'.agent_type = a.agent_type ∧
      (a'.local_view = a.local_view ∨
        (a.is_byzantine = false ∧
          a'.local_view = retimeView net.ledger_view o.now)) := by
  have hpg : (phase1_counters { net with round_num := net.round_num + 1 } o).agents[i]?
      = some ({ a with
          peers := o.peers a.agent_id,
          messages_sent := a.messages_sent + (o.peers a.agent_id).length }) := by
    rw [phase1_agents_getElem?]
    show (net.agents[i]?).map _ = _
    rw [hget]
    rfl
  obtain ⟨a', h1, _, hty, _, hview⟩ :=
    deliver_msgs_get?
      (round_messages { net with round_num := net.round_num + 1 } o)
      (phase1_counters { net with round_num := net.round_num + 1 } o)
      o.now i _ hpg
  exact ⟨a', h1, hty, hview⟩

/-- C8: if every honest agent already matches ground truth (timestamp
ignored), one more round changes no honest agent's view (up to the
timestamp) and still reports converged. -/
theorem run_round_idempotent_on_converged (net : Network) (o : RoundOracle)
    (hconv : ∀ a ∈ net.agents, a.is_byzantine = false →
      viewEq a.local_view net.ledger_view = true) :
    (net.run_round o).1 = true ∧
    ∀ (i : Nat) (a a' : Agent), net.agents[i]? = some a →
      (net.run_round o).2.agents[i]? = some a' →
      a.is_byzantine = false →
      viewEq a'.local_view a.local_view = true ∧
      viewEq a'.local_view net.ledger_view = true := by
  have hkey : ∀ (i : Nat) (a : Agent), net.agents[i]? = some a →
      a.is_byzantine = false →
      ∃ a', (deliver_msgs
          (phase1_counters { net with round_num := net.round_num + 1 } o)
          (round_messages { net with round_num := net.round_num + 1 } o)
          o.now).agents[i]? = some a' ∧
        a'.agent_type = a.agent_type ∧
        viewEq a'.local_view net.ledger_view = true := by
    intro i a hget hhon
    obtain ⟨a', h1, hty, hview⟩ := round_agents_getElem? net o i a hget
    refine ⟨a', h1, hty, ?_⟩
    rcases hview with hv | ⟨_, hv⟩
    · rw [hv]
      exact hconv a (List.getElem?_mem hget) hhon
    · rw [hv]
      exact viewEq_retime_left _ _
  have hlen : (deliver_msgs
      (phase1_counters { net with round_num := net.round_num + 1 } o)
      (round_messages { net with round_num := net.round_num + 1 } o)
      o.now).agents.length = net.agents.length := by
    rw [deliver_msgs_length, phase1_length]
  have hledger3 : (deliver_msgs
      (phase1_counters { net with round_num := net.round_num + 1 } o)
      (round_messages { net with round_num := net.round_num + 1 } o)
      o.now).ledger_view = net.ledger_view := by
    rw [deliver_msgs_ledger, phase1_ledger]
  have hfst : (net.run_round o).1 = true := by
    rw [run_round_eq, check_convergence_fst_iff]
    intro b hb hbhon
    obtain ⟨j, hjlt, hjget⟩ := List.getElem_of_mem hb
    have hjq : (deliver_msgs
        (phase1_counters { net with round_num := net.round_num + 1 } o)
        (round_messages { net with round_num := net.round_num + 1 } o)
        o.now).agents[j]? = some b := by
      rw [List.getElem?_eq_getElem hjlt, hjget]
    have hjlt' : j < net.agents.length := by rw [← hlen]; exact hjlt
    have hjget' : net.agents[j]? = some net.agents[j] :=
      List.getElem?_eq_getElem hjlt'
    have hhon' : (net.agents[j]).is_byzantine = false := by
      obtain ⟨a', h1, hty, hview⟩ :=
        round_agents_getElem? net o j (net.agents[j]) hjget'
      have hba : a' = b := by
        rw [hjq] at h1
        exact (Option.some.inj h1).symm
      subst hba
      rw [← is_byzantine_of_type hty]
      exact hbhon
    obtain ⟨a', h1, hty, hvq⟩ := hkey j (net.agents[j]) hjget' hhon'
    have hba : a' = b := by
      rw [hjq] at h1
      exact (Option.some.inj h1).symm
    subst hba
    rw [hledger3]
    exact hvq
  refine ⟨hfst, ?_⟩
  intro i a a' hget hget' hhon
  obtain ⟨a'', h1, hty, hvq⟩ := hkey i a hget hhon
  have haa : a'' = a' := by
    rw [run_round_eq] at hget'
    rw [check_convergence_agents] at hget'
    rw [hget'] at h1
    exact (Option.some.inj h1).symm
  subst haa
  have hal : viewEq a.local_view net.ledger_view = true :=
    hconv a (List.getElem?_mem hget) hhon
  exact ⟨viewEq_trans hvq (viewEq_symm hal), hvq⟩

theorem run_round_idempotent_witness :
    (wNetConv.run_round wO).1 = true := by
  have h := run_round_idempotent_on_converged wNetConv wO (by decide)
  exact h.1

/-! ### C5: message accounting -/

theorem sum_map_const_of {α : Type} (l : List α) (f : α → Nat) (k : Nat)
    (h : ∀ a ∈ l, f a = k) : (l.map f).sum = l.length * k := by
  induction l with
  | nil => simp
  | cons x xs ih =>
    simp only [List.map_cons, List.sum_cons, List.length_cons]
    rw [h x (List.mem_cons_self x xs),
      ih (fun a ha => h a (List.mem_cons_of_mem x ha))]
    ring

theorem sum_map_add {α : Type} (l : List α) (f g : α → Nat) :
    (l.map (fun a => f a + g a)).sum = (l.map f).sum + (l.map g).sum := by
  induction l with
  | nil => rfl
  | cons x xs ih =>
    simp only [List.map_cons, List.sum_cons]
    rw [ih]
    ring

theorem check_convergence_n_agents (net : Network) :
    (net.check_convergence).2.n_agents = net.n_agents := by
  rcases check_convergence_snd net with h | h <;> rw [h]

theorem check_convergence_fanout (net : Network) :
    (net.check_convergence).2.fanout = net.fanout := by
  rcases check_convergence_snd net with h | h <;> rw [h]

theorem phase1_map_id (net : Network) (o : RoundOracle) :
    (phase1_counters net o).agents.map (fun a => a.agent_id) =
      net.agents.map (fun a => a.agent_id) := by
  show (net.agents.map _).map _ = _
  rw [List.map_map]
  rfl

theorem deliver_msgs_map_id (msgs : List Message) (net : Network) (now : Int) :
    (deliver_msgs net msgs now).agents.map (fun a => a.agent_id) =
      net.agents.map (fun a => a.agent_id) :=
  deliver_msgs_map msgs (fun a => a.agent_id)
    (fun led t r sv => (receive_summary_spec led t r sv).1) net now

theorem deliver_msgs_map_sent (msgs : List Message) (net : Network) (now : Int) :
    (deliver_msgs net msgs now).agents.map (fun a => a.messages_sent) =
      net.agents.map (fun a => a.messages_sent) :=
  deliver_msgs_map msgs (fun a => a.messages_sent)
    (fun led t r sv => (receive_summary_spec led t r sv).2.2.2.1) net now

theorem phase1_total_messages (net : Network) (o : RoundOracle) :
    (phase1_counters net o).total_messages = net.total_messages +
      ((net.agents.map (fun a => (o.peers a.agent_id).length)).sum) := rfl

theorem phase1_sent_sum (net : Network) (o : RoundOracle) :
    sent_sum (phase1_counters net o) = sent_sum net +
      ((net.agents.map (fun a => (o.peers a.agent_id).length)).sum) := by
  show ((net.agents.map _).map _).sum = _
  rw [List.map_map]
  show (net.agents.map (fun a =>
    a.messages_sent + (o.peers a.agent_id).length)).sum = _
  rw [sum_map_add]
  rfl

theorem phase1_n_agents (net : Network) (o : RoundOracle) :
    (phase1_counters net o).n_agents = net.n_agents := rfl

theorem phase1_fanout (net : Network) (o : RoundOracle) :
    (phase1_counters net o).fanout = net.fanout := rfl

/-- One round's exact accounting: with every peer draw of size `k`, the
network counter and the summed per-agent counters each grow by `n * k`, and
the population shape is preserved. -/
theorem run_round_accounting (net : Network) (o : RoundOracle) (k : Nat)
    (hlen : net.agents.length = net.n_agents)
    (hids : ∀ a ∈ net.agents, a.agent_id < net.n_agents)
    (hval : ∀ i, i < net.n_agents → (o.peers i).length = k) :
    (net.run_round o).2.total_messages = net.total_messages + net.n_agents * k ∧
    sent_sum (net.run_round o).2 = sent_sum net + net.n_agents * k ∧
    (net.run_round o).2.agents.length = (net.run_round o).2.n_agents ∧
    (∀ a ∈ (net.run_round o).2.agents, a.agent_id < (net.run_round o).2.n_agents) ∧
    (net.run_round o).2.n_agents = net.n_agents ∧
    (net.run_round o).2.fanout = net.fanout := by
  rw [run_round_eq]
  set net1 : Network := { net with round_num := net.round_num + 1 } with hnet1
  set msgs := round_messages net1 o with hmsgs
  have hsum : ((net.agents.map (fun a => (o.peers a.agent_id).length)).sum)
      = net.n_agents * k := by
    rw [sum_map_const_of net.agents _ k (fun a ha => hval a.agent_id (hids a ha)),
      hlen]
  have hagents1 : net1.agents = net.agents := rfl
  constructor
  · rw [check_convergence_total_messages, deliver_msgs_total_messages,
      phase1_total_messages]
    show net.total_messages + _ = _
    rw [hsum]
  constructor
  · have hss : sent_sum ((deliver_msgs (phase1_counters net1 o) msgs o.now).check_convergence).2
        = sent_sum (phase1_counters net1 o) := by
      unfold sent_sum
      rw [check_convergence_agents, deliver_msgs_map_sent]
    rw [hss, phase1_sent_sum]
    show sent_sum net + _ = _
    rw [hsum]
  constructor
  · rw [check_convergence_agents, deliver_msgs_length, phase1_length,
      check_convergence_n_agents, deliver_msgs_n_agents, phase1_n_agents]
    exact hlen
  constructor
  · intro a ha
    rw [check_convergence_agents] at ha
    have hmap : (deliver_msgs (phase1_counters net1 o) msgs o.now).agents.map
        (fun x => x.agent_id) = net.agents.map (fun x => x.agent_id) := by
      rw [deliver_msgs_map_id, phase1_map_id]
    obtain ⟨b, hb, hfb⟩ := mem_map_eq_of_map_eq _ hmap a ha
    rw [check_convergence_n_agents, deliver_msgs_n_agents, phase1_n_agents]
    show a.agent_id < net.n_agents
    rw [← hfb]
    exact hids b hb
  constructor
  · rw [check_convergence_n_agents, deliver_msgs_n_agents, phase1_n_agents]
  · rw [check_convergence_fanout, deliver_msgs_fanout, phase1_fanout]

theorem init_length (n f fanout : Nat) (did : String) (c : InitChoice) :
    (Network.init n f fanout did c).agents.length = n := by
  show ((List.range n).map _).length = n
  rw [List.length_map, List.length_range]

theorem init_ids (n f fanout : Nat) (did : String) (c : InitChoice) :
    ∀ a ∈ (Network.init n f fanout did c).agents, a.agent_id < n := by
  intro a ha
  simp only [Network.init, List.mem_map, List.mem_range] at ha
  obtain ⟨i, hi, rfl⟩ := ha
  split <;> exact hi

theorem init_sent_sum (n f fanout : Nat) (did : String) (c : InitChoice) :
    sent_sum (Network.init n f fanout did c) = 0 := by
  unfold sent_sum
  rw [sum_map_const_of _ _ 0 ?_, Nat.mul_zero]
  intro a ha
  simp only [Network.init, List.mem_map, List.mem_range] at ha
  obtain ⟨i, hi, rfl⟩ := ha
  split <;> rfl

/-- C5: starting from a fresh network of `n` agents with requested fanout
capped at `n - 1`, after `r` executed rounds the network message counter
equals the sum of the per-agent sent counters, and both equal
`k * n * r` for the effective fanout `k` — every agent emits exactly `k`
messages in every round. -/
theorem message_accounting (n f fanout : Nat) (did : String) (c : InitChoice)
    (os : Nat → RoundOracle) (r : Nat)
    (hval : ∀ j i, i < n → ((os j).peers i).length = min fanout (n - 1)) :
    (run_rounds (Network.init n f fanout did c) os r).total_messages
      = sent_sum (run_rounds (Network.init n f fanout did c) os r) ∧
    (run_rounds (Network.init n f fanout did c) os r).total_messages
      = min fanout (n - 1) * n * r := by
  have key : ∀ (s : Nat),
      (run_rounds (Network.init n f fanout did c) os s).total_messages
        = n * min fanout (n - 1) * s ∧
      sent_sum (run_rounds (Network.init n f fanout did c) os s)
        = n * min fanout (n - 1) * s ∧
      (run_rounds (Network.init n f fanout did c) os s).agents.length
        = (run_rounds (Network.init n f fanout did c) os s).n_agents ∧
      (∀ a ∈ (run_rounds (Network.init n f fanout did c) os s).agents,
        a.agent_id < (run_rounds (Network.init n f fanout did c) os s).n_agents) ∧
      (run_rounds (Network.init n f fanout did c) os s).n_agents = n := by
    intro s
    induction s with
    | zero =>
      refine ⟨by simp [run_rounds]; rfl, ?_, ?_, ?_, rfl⟩
      · show sent_sum (Network.init n f fanout did c) = _
        rw [init_sent_sum]
        ring
      · show (Network.init n f fanout did c).agents.length = _
        rw [init_length]
        rfl
      · show ∀ a ∈ (Network.init n f fanout did c).agents, _
        exact init_ids n f fanout did c
    | succ s ih =>
      obtain ⟨ihtot, ihsent, ihlen, ihids, ihn⟩ := ih
      have hval' : ∀ i, i < (run_rounds (Network.init n f fanout did c) os s).n_agents →
          ((os s).peers i).length = min fanout (n - 1) := by
        intro i hi
        rw [ihn] at hi
        exact hval s i hi
      have hacc := run_round_accounting
        (run_rounds (Network.init n f fanout did c) os s) (os s)
        (min fanout (n - 1)) ihlen ihids hval'
      refine ⟨?_, ?_, hacc.2.2.1, hacc.2.2.2.1, hacc.2.2.2.2.1.trans ihn⟩
      · show ((run_rounds (Network.init n f fanout did c) os s).run_round (os s)).2.total_messages = _
        rw [hacc.1, ihtot, ihn]
        ring
      · show sent_sum ((run_rounds (Network.init n f fanout did c) os s).run_round (os s)).2 = _
        rw [hacc.2.1, ihsent, ihn]
        ring
  obtain ⟨htot, hsent, _, _, _⟩ := key r
  constructor
  · rw [htot, hsent]
  · rw [htot]
    ring

def wOP : RoundOracle :=
  { peers := fun i => [(i + 1) % 2], byz_version := fun _ => 12,
    byz_seed := fun _ => 0, now := 7 }

theorem message_accounting_witness :
    (run_rounds (Network.init 2 0 1 "did:example:123" wICByz)
        (fun _ => wOP) 3).total_messages
      = sent_sum (run_rounds (Network.init 2 0 1 "did:example:123" wICByz)
        (fun _ => wOP) 3) ∧
    (run_rounds (Network.init 2 0 1 "did:example:123" wICByz)
        (fun _ => wOP) 3).total_messages = min 1 (2 - 1) * 2 * 3 :=
  message_accounting 2 0 1 "did:example:123" wICByz (fun _ => wOP) 3
    (by
      intro j
      show ∀ i, i < 2 → ((wOP).peers i).length = min 1 (2 - 1)
      decide)

/-! ### C3: one fabricated view per byzantine agent per round -/

/-- Every emitted message's sender and carried view come from one agent of
the population. -/
theorem round_messages_mem (net : Network) (o : RoundOracle) (m : Message)
    (hm : m ∈ round_messages net o) :
    ∃ b ∈ net.agents, m.sender = b.agent_id ∧
      m.view = summary_view net o b := by
  obtain ⟨b, hb, hmb⟩ := List.exists_of_mem_flatMap hm
  obtain ⟨peer, _, rfl⟩ := List.mem_map.mp hmb
  exact ⟨b, hb, rfl, rfl⟩

/-- C3 (amended): within one round each agent — in particular each byzantine
agent — carries one single view in all the messages it emits: a byzantine
agent's `fanout` Summary messages of a round all carry the same fabricated
view (fresh random version and digest drawn once per agent per round), not
an independently fabricated view per message. -/
theorem byzantine_one_lie_per_round (net : Network) (o : RoundOracle)
    (hnodup : (net.agents.map (fun a => a.agent_id)).Nodup) :
    (∀ m1 ∈ round_messages net o, ∀ m2 ∈ round_messages net o,
      m1.sender = m2.sender → m1.view = m2.view) ∧
    (∀ a ∈ net.agents, a.is_byzantine = true →
      ∀ m ∈ round_messages net o, m.sender = a.agent_id →
        m.view = byzantine_fake_view net o a.agent_id) := by
  constructor
  · intro m1 hm1 m2 hm2 hs
    obtain ⟨b1, hb1, hsb1, hvb1⟩ := round_messages_mem net o m1 hm1
    obtain ⟨b2, hb2, hsb2, hvb2⟩ := round_messages_mem net o m2 hm2
    have hb12 : b1 = b2 :=
      List.inj_on_of_nodup_map hnodup hb1 hb2 (by
        show b1.agent_id = b2.agent_id
        rw [← hsb1, ← hsb2, hs])
    rw [hvb1, hvb2, hb12]
  · intro a ha hbyz m hm hs
    obtain ⟨b, hb, hsb, hvb⟩ := round_messages_mem net o m hm
    have hab : b = a :=
      List.inj_on_of_nodup_map hnodup hb ha (by rw [← hsb, hs])
    rw [hvb, hab]
    unfold summary_view
    rw [if_pos]
    rw [hbyz]

def c3agent0 : Agent :=
  { agent_id := 0, agent_type := AgentType.byzantine, local_view := wStale8 }

def c3net : Network :=
  { n_agents := 3, f_byzantine := 1, fanout := 2, did := "did:example:123",
    agents := [c3agent0,
      { agent_id := 1, agent_type := AgentType.honest, local_view := wStale8 },
      { agent_id := 2, agent_type := AgentType.honest, local_view := wStale8 }],
    ledger_view := wLedger, round_num := 1, total_messages := 0,
    total_ledger_queries := 0, convergence_round := none }

def c3o : RoundOracle :=
  { peers := fun i => if i = 0 then [1, 2] else [],
    byz_version := fun _ => 12, byz_seed := fun _ => 7, now := 0 }

/-- C3 (counterexample to the claim as stated): in this concrete round the
byzantine agent 0 sends Summary messages to the two distinct peers 1 and 2,
and both messages carry the identical fabricated view — the view is drawn
once per agent per round, so the lie cannot differ per peer within a
round. -/
theorem byzantine_one_lie_counterexample :
    ((round_messages c3net c3o).filter (fun m => m.sender == 0)).map
        (fun m => (m.receiver, m.view)) =
      [(1, byzantine_fake_view c3net c3o 0),
       (2, byzantine_fake_view c3net c3o 0)] := by
  decide

def c3m : Message :=
  { sender := 0, receiver := 1, msg_type := "SUMMARY",
    view := { did := "did:example:123", version := 12,
              doc_hash := "h:byzantine_7", timestamp := 0 },
    round_num := 1 }

theorem byzantine_one_lie_per_round_witness :
    c3m.view = byzantine_fake_view c3net c3o 0 :=
  (byzantine_one_lie_per_round c3net c3o (by decide)).2 c3agent0
    (by decide) (by decide) c3m (by decide) (by decide)

/-! ### C9: skipped configurations emit no result record -/

theorem foldlM_except_inv {α β : Type} (P : β → Prop)
    (f : β → α → Except String β)
    (hf : ∀ (b : β) (a : α) (b' : β), f b a = Except.ok b' → P b → P b') :
    ∀ (l : List α) (b b' : β), l.foldlM f b = Except.ok b' → P b → P b' := by
  intro l
  induction l with
  | nil =>
    intro b b' h hb
    have hbb : b = b' := Except.ok.inj h
    rw [← hbb]
    exact hb
  | cons a l ih =>
    intro b b' h hb
    have hstep : (a :: l).foldlM f b = f b a >>= fun b1 => l.foldlM f b1 := rfl
    rw [hstep] at h
    cases hfa : f b a with
    | error e =>
      rw [hfa] at h
      cases h
    | ok b1 =>
      rw [hfa] at h
      exact ih b1 b' h (hf b a b1 hfa hb)

/-- C9: every result record emitted by the driver comes from a
configuration that passed the BFT bound: its `f` is the floor of
`n * ratio` and satisfies `f < n / 3`; a single swept pair that violates
the bound is skipped outright (no trial run, no record emitted, for any
random source); and `n = 10` with ratio `2 / 5` yields `f = 4`, which is
such a violating pair. -/
theorem skip_bft_violation :
    (∀ (n_values : List Nat) (f_fracs : List ℚ) (fanout trials : Nat)
      (oracle : Nat → ℚ → Nat → TrialOracle) (res : List ResultRecord),
      run_experiment n_values f_fracs fanout trials oracle = Except.ok res →
      ∀ rec ∈ res, ((rec.f : ℚ) < (rec.n : ℚ) / 3 ∧
        rec.f = (⌊(rec.n : ℚ) * rec.f_frac⌋).toNat)) ∧
    (∀ (n : Nat) (frac : ℚ) (fanout trials : Nat)
      (oracle : Nat → ℚ → Nat → TrialOracle),
      (((⌊(n : ℚ) * frac⌋).toNat : ℚ) ≥ (n : ℚ) / 3) →
      run_experiment [n] [frac] fanout trials oracle = Except.ok []) ∧
    (⌊(10 : ℚ) * (2 / 5)⌋).toNat = 4 := by
  refine ⟨?_, ?_, by norm_num; decide⟩
  · intro n_values f_fracs fanout trials oracle res hrun rec hrec
    unfold run_experiment at hrun
    refine foldlM_except_inv
      (fun rs => ∀ r ∈ rs, ((r.f : ℚ) < (r.n : ℚ) / 3 ∧
        r.f = (⌊(r.n : ℚ) * r.f_frac⌋).toNat))
      _ ?_ n_values [] res hrun (by intro r hr; cases hr) rec hrec
    intro b nn b' hfb hPb
    refine foldlM_except_inv
      (fun rs => ∀ r ∈ rs, ((r.f : ℚ) < (r.n : ℚ) / 3 ∧
        r.f = (⌊(r.n : ℚ) * r.f_frac⌋).toNat))
      _ ?_ f_fracs b b' hfb hPb
    intro c frac c' hG hPc
    dsimp only at hG
    by_cases hskip : ((((⌊(nn : ℚ) * frac⌋).toNat : Nat) : ℚ) ≥ (nn : ℚ) / 3)
    · rw [if_pos hskip] at hG
      have hcc : c = c' := Except.ok.inj hG
      rw [← hcc]
      exact hPc
    · rw [if_neg hskip] at hG
      by_cases hzero : (((List.range trials).map (fun trial =>
          run_trial nn (⌊(nn : ℚ) * frac⌋).toNat fanout
            (oracle nn frac trial))).filter (fun r => r.converged)).length = 0
      · rw [if_pos hzero] at hG
        cases hG
      · rw [if_neg hzero] at hG
        have hcc := Except.ok.inj hG
        rw [← hcc]
        intro r hr
        rcases List.mem_append.mp hr with hr1 | hr2
        · exact hPc r hr1
        · have hr3 : r = _ := List.mem_singleton.mp hr2
          rw [hr3]
          refine ⟨?_, rfl⟩
          show ((⌊(nn : ℚ) * frac⌋).toNat : ℚ) < (nn : ℚ) / 3
          exact lt_of_not_ge hskip
  · intro n frac fanout trials oracle hskip
    show ((if (((⌊(n : ℚ) * frac⌋).toNat : ℚ) ≥ (n : ℚ) / 3) then
            (pure ([] : List ResultRecord) : Except String (List ResultRecord))
          else _) >>= fun b1 => List.foldlM _ b1 ([] : List ℚ)) >>=
            (fun b2 => List.foldlM _ b2 ([] : List Nat)) = Except.ok []
    rw [if_pos hskip]
    rfl

def w9Or : TrialOracle :=
  { ic := { byzantine_ids := [], byz_version := fun _ => 12,
            stale_version := fun _ => 9, stale_offset := fun _ => 20, now := 0 },
    rounds := fun _ => wO }

theorem skip_bft_violation_witness :
    run_experiment [10] [2 / 5] 3 1 (fun _ _ _ => w9Or) = Except.ok [] :=
  skip_bft_violation.2.1 10 (2 / 5) 3 1 (fun _ _ _ => w9Or)
    (by
      have h4 : (⌊((10 : Nat) : ℚ) * (2 / 5)⌋).toNat = 4 := by
        norm_num
        decide
      rw [h4]
      norm_num)

/-! ### C4: aggregation of an all-non-converged configuration -/

/-- C4: on a configuration in which no trial converges (here one trial of a
single-agent network whose effective fanout is 0, so no message is ever
delivered and the lone honest agent stays stale for the whole 50-round
budget), the driver's aggregation divides the convergence-round sum by the
number of converged trials — zero — and aborts with `ZeroDivisionError`
instead of completing and reporting the mean as absent.  The dead
`avg == avg` NaN-guard in the source shows the absent-mean behaviour was
intended but is never reached. -/
theorem nonconverged_mean_raises :
    run_experiment [1] [0] 3 1 (fun _ _ _ => w9Or)
      = Except.error "ZeroDivisionError: division by zero" := by
  with_unfolding_all rfl

end BFTMVDID
